import Mathlib

/-!
A verification development for a Go memcached client library.

The embedding models, byte-for-byte where it matters:
- the connection layer (conn.go): one TCP socket per address, a single
  reconnect-and-retry pass on any I/O failure;
- the server-session layer: memcached text-protocol framing over a
  buffered reader (command/response lines, VALUE block parsing, stats);
- the client layer: CRC32-based key routing and the command surface.

Machine integers are modelled as Nat (all values in play are unsigned and
small; Go ints are 64-bit here, so a uint32 hash cast to int is the same
Nat). Byte slices and the byte content of Go strings are List Nat.
Network nondeterminism (I/O failures, TCP fragmentation, dial outcomes)
is passed in explicitly as data, so every definition is executable.
-/

set_option linter.unusedVariables false

namespace Memcache

/-- Bytes models Go byte slices and the byte content of Go strings. -/
abbrev Bytes := List Nat

/-- The UTF-8 bytes of a string literal; all protocol text in the source is ASCII. -/
def strBytes (s : String) : Bytes := s.data.map Char.toNat

/-- GoErr models the Go error values reachable in this library: the eight
sentinel errors of errors.go, external I/O causes (dial/read/write failures,
identified by an opaque code), io.EOF, strconv parse failures, and
errors.Join of a sentinel with its cause. -/
inductive GoErr where
  | errEmptyAddresses
  | errStoreFailed
  | errWriteFailed
  | errReadFailed
  | errNotFound
  | errUnexpectedResponse
  | errInternal
  | errNoServers
  | ioError (code : Nat)
  | eof
  | parseErr
  | joined (sentinel cause : GoErr)
deriving DecidableEq, Repr

/-- The reversed CRC-32 (IEEE) polynomial used by Go's hash/crc32 package. -/
def crc32Poly : Nat := 0xEDB88320

/-- One bit step of the reflected CRC-32 computation. -/
def crc32Step (crc : Nat) : Nat :=
  if crc % 2 = 1 then Nat.xor (crc / 2) crc32Poly else crc / 2

/-- Fold one input byte into the CRC state (eight bit steps). -/
def crc32UpdateByte (crc b : Nat) : Nat :=
  (List.range 8).foldl (fun acc _ => crc32Step acc) (Nat.xor crc b)

/-- Go's crc32.ChecksumIEEE: reflected CRC-32, initial value 0xFFFFFFFF,
final xor 0xFFFFFFFF, polynomial 0xEDB88320. -/
def crc32ChecksumIEEE (data : Bytes) : Nat :=
  Nat.xor (data.foldl crc32UpdateByte 0xFFFFFFFF) 0xFFFFFFFF

set_option maxRecDepth 4096 in
example : crc32ChecksumIEEE (strBytes "123456789") = 0xCBF43926 := by decide

example : crc32ChecksumIEEE [] = 0 := by decide

/-- ASCII whitespace, as recognised byte-wise by strings.TrimSpace (the
protocol responses trimmed here are ASCII, where TrimSpace acts per byte). -/
def isSpaceByte (b : Nat) : Bool :=
  b == 32 || b == 9 || b == 10 || b == 11 || b == 12 || b == 13

/-- Drop trailing bytes satisfying p (helper for trimSpace). -/
def dropTrailing (p : Nat → Bool) (bs : Bytes) : Bytes :=
  (bs.reverse.dropWhile p).reverse

/-- strings.TrimSpace on ASCII data: strip leading and trailing whitespace. -/
def trimSpace (bs : Bytes) : Bytes :=
  dropTrailing isSpaceByte (bs.dropWhile isSpaceByte)

example : trimSpace (strBytes "  END\r\n") = strBytes "END" := by decide

/-- strings.Split(s, " "): split on every single space, keeping empty fields. -/
def splitOnSpace : Bytes → List Bytes
  | [] => [[]]
  | b :: bs =>
    match splitOnSpace bs with
    | [] => [[]]
    | g :: gs => if b == 32 then [] :: g :: gs else (b :: g) :: gs

example : splitOnSpace (strBytes "VALUE key 0 5") =
    [strBytes "VALUE", strBytes "key", strBytes "0", strBytes "5"] := by decide

example : splitOnSpace (strBytes "a  b") = [strBytes "a", [], strBytes "b"] := by
  decide

/-- Split off everything before the first space byte, if any (helper for
strings.SplitN). -/
def breakAtSpace : Bytes → Option (Bytes × Bytes)
  | [] => none
  | b :: bs =>
    if b == 32 then some ([], bs)
    else match breakAtSpace bs with
      | some (l, r) => some (b :: l, r)
      | none => none

/-- strings.SplitN(s, " ", n) for n ≥ 1: at most n fields, the last field
keeps the remaining spaces. -/
def splitOnSpaceN : Nat → Bytes → List Bytes
  | 0, bs => [bs]
  | 1, bs => [bs]
  | n + 2, bs =>
    match breakAtSpace bs with
    | none => [bs]
    | some (l, r) => l :: splitOnSpaceN (n + 1) r

example : splitOnSpaceN 3 (strBytes "STAT pid 123 45") =
    [strBytes "STAT", strBytes "pid", strBytes "123 45"] := by decide

/-- Decimal digit test on a byte. -/
def isDigitByte (b : Nat) : Bool := 48 ≤ b && b ≤ 57

/-- Numeric value of a string of decimal digit bytes. -/
def decValue (ds : Bytes) : Nat := ds.foldl (fun a b => a * 10 + (b - 48)) 0

/-- strconv.Atoi: optional single sign followed by at least one digit.
(The int64 overflow error is not modelled; every count in play is tiny.) -/
def atoiInt (bs : Bytes) : Option Int :=
  match bs with
  | 43 :: rest =>
    if !rest.isEmpty && rest.all isDigitByte then some (decValue rest : Int) else none
  | 45 :: rest =>
    if !rest.isEmpty && rest.all isDigitByte then some (-(decValue rest : Int)) else none
  | _ =>
    if !bs.isEmpty && bs.all isDigitByte then some (decValue bs : Int) else none

example : atoiInt (strBytes "42") = some 42 := by decide
example : atoiInt (strBytes "-7") = some (-7) := by decide
example : atoiInt (strBytes "4x") = none := by decide

/-- strconv.ParseUint(s, 10, 64): digit-only unsigned decimal below 2^64. -/
def parseUintB (bs : Bytes) : Option Nat :=
  if !bs.isEmpty && bs.all isDigitByte && decValue bs < 2 ^ 64 then
    some (decValue bs)
  else none

/-- fmt.Sscanf(resp, sdVerb, addrOf uint64Var) with the error ignored, as the
source does: skip leading spaces, read a maximal digit run; if there is none
(or the value overflows uint64 and scanning errors out), the variable keeps
its zero value. -/
def sscanfUint (bs : Bytes) : Nat :=
  let t := bs.dropWhile isSpaceByte
  let ds := t.takeWhile isDigitByte
  if ds.isEmpty then 0
  else if decValue ds < 2 ^ 64 then decValue ds else 0

example : sscanfUint (strBytes "15") = 15 := by decide
example : sscanfUint (strBytes "CLIENT_ERROR bad") = 0 := by decide
example : sscanfUint (strBytes "12abc") = 12 := by decide

/-- Decimal rendering of a Go int (the sd verb of fmt.Sprintf). -/
def intBytes (i : Int) : Bytes := strBytes (toString i)

/-- Decimal rendering of a Go non-negative length. -/
def natBytes (n : Nat) : Bytes := strBytes (toString n)

example : intBytes (-3) = strBytes "-3" := by decide
example : natBytes 12 = strBytes "12" := by decide

/-!
The buffered-reader model.

Each Server method wraps the connection in a fresh bufio.Reader. The bytes
the peer will deliver are modelled as a list of chunks: one underlying
conn.Read returns (a prefix of) one chunk, exactly as a TCP stream hands
over whatever has arrived. Every chunk is assumed to fit the 4096-byte
bufio buffer, which holds for all inputs considered here; under that
assumption the buffer/stream split below matches bufio exactly.
-/

/-- Find the first newline: splitAtNewline bs = some (line, rest) splits bs
into the shortest prefix ending in a newline byte and the remainder. -/
def splitAtNewline : Bytes → Option (Bytes × Bytes)
  | [] => none
  | b :: bs =>
    if b = 10 then some ([10], bs)
    else match splitAtNewline bs with
      | some (l, r) => some (b :: l, r)
      | none => none

/-- bufio.Reader.ReadString of a newline: accumulate buffered bytes and
whole chunks until a newline is seen; the unread remainder stays buffered.
Returns none when the stream is exhausted first (the read error path). -/
def readLine (chunks : List Bytes) (buf : Bytes) :
    Option (Bytes × Bytes × List Bytes) :=
  match splitAtNewline buf with
  | some (l, r) => some (l, r, chunks)
  | none =>
    match chunks with
    | [] => none
    | c :: cs => readLine cs (buf ++ c)

example : readLine [strBytes "LLO\r\n"] [] =
    some (strBytes "LLO\r\n", [], []) := by decide

example : readLine [strBytes "EN", strBytes "D\r\nrest"] [] =
    some (strBytes "END\r\n", strBytes "rest", []) := by decide

/-- bufio.Reader.Read(p) with len(p) = n: a single draw. If bytes are
buffered, it returns only those (up to n); otherwise it performs exactly one
underlying read, returning at most one chunk (up to n bytes, the surplus
staying buffered). Returns none at end of stream (the io.EOF path). It never
waits for n bytes — the short-read behaviour at the heart of the payload
claims. -/
def readerReadOnce (buf : Bytes) (chunks : List Bytes) (n : Nat) :
    Option (Bytes × Bytes × List Bytes) :=
  match buf with
  | _ :: _ => some (buf.take n, buf.drop n, chunks)
  | [] =>
    match chunks with
    | [] => none
    | c :: cs => some (c.take n, c.drop n, cs)

example : readerReadOnce [] [strBytes "HE", strBytes "LLO\r\n"] 7 =
    some (strBytes "HE", [], [strBytes "LLO\r\n"]) := by decide

/-!
The connection layer (conn.go).

Sockets are opaque ids. A Conn holds its immutable address and an optional
socket; conn = none models a nil net.Conn after a failed redial. One call's
network nondeterminism is a ConnEnv: the outcome of the operation attempt on
the current socket, the outcome of a redial, and the outcome of the retried
operation on the fresh socket. Calls also emit a trace of the primitive
socket events they perform, so retry counts are part of the statement.
-/

/-- The socket held by a Conn; none models Go's nil net.Conn. -/
structure Conn where
  addr : String
  conn : Option Nat
deriving DecidableEq, Repr

/-- Outcome of one Go io operation: bytes transferred plus optional error
(Go's (n, err) pair). -/
structure IOResult where
  n : Nat
  err : Option GoErr
deriving DecidableEq, Repr

deriving instance DecidableEq for Except

/-- Network nondeterminism for a single Conn.Write or Conn.Read call. -/
structure ConnEnv where
  first : IOResult
  dial : Except GoErr Nat
  second : IOResult
deriving DecidableEq, Repr

/-- Primitive socket events a call performs, for counting attempts. -/
inductive ConnEvent where
  | attempt (sock : Nat)
  | closeSock (sock : Nat)
  | dialEv (res : Option Nat)
deriving DecidableEq, Repr

/-- Result of a Conn.Write / Conn.Read call: Go's (n, err) return, or the
runtime fault raised by invoking a method on a nil net.Conn. -/
inductive CallOut where
  | ret (n : Nat) (err : Option GoErr)
  | nilDeref
deriving DecidableEq, Repr

/-- Conn.connect: no-op if a socket is present, otherwise dial the stored
address. -/
def Conn.connect (c : Conn) (env : ConnEnv) :
    Option GoErr × Conn × List ConnEvent :=
  match c.conn with
  | some _ => (none, c, [])
  | none =>
    match env.dial with
    | .error e => (some e, c, [.dialEv none])
    | .ok s => (none, { c with conn := some s }, [.dialEv (some s)])

/-- Conn.reconnect: close and drop the stale socket if present, then
connect. -/
def Conn.reconnect (c : Conn) (env : ConnEnv) :
    Option GoErr × Conn × List ConnEvent :=
  match c.conn with
  | some s =>
    let r := Conn.connect { c with conn := none } env
    (r.1, r.2.1, .closeSock s :: r.2.2)
  | none => Conn.connect c env

/-- Conn.Write: attempt on the current socket; on failure reconnect once and
retry once, returning the redial error or the retry's (n, err) unmodified.
A nil socket (only reachable after a failed redial) faults, as a Go method
call on a nil net.Conn does. -/
def Conn.Write (c : Conn) (b : Bytes) (env : ConnEnv) :
    CallOut × Conn × List ConnEvent :=
  match c.conn with
  | none => (.nilDeref, c, [])
  | some s =>
    match env.first.err with
    | none => (.ret env.first.n none, c, [.attempt s])
    | some _ =>
      let r := Conn.reconnect c env
      match r.1 with
      | some e => (.ret env.first.n (some e), r.2.1, .attempt s :: r.2.2)
      | none =>
        match r.2.1.conn with
        | none => (.nilDeref, r.2.1, .attempt s :: r.2.2)
        | some s2 =>
          (.ret env.second.n env.second.err, r.2.1,
            .attempt s :: r.2.2 ++ [.attempt s2])

/-- Conn.Read: byte-identical control flow to Conn.Write in the source, with
the read attempts in place of write attempts. -/
def Conn.Read (c : Conn) (p : Bytes) (env : ConnEnv) :
    CallOut × Conn × List ConnEvent :=
  match c.conn with
  | none => (.nilDeref, c, [])
  | some s =>
    match env.first.err with
    | none => (.ret env.first.n none, c, [.attempt s])
    | some _ =>
      let r := Conn.reconnect c env
      match r.1 with
      | some e => (.ret env.first.n (some e), r.2.1, .attempt s :: r.2.2)
      | none =>
        match r.2.1.conn with
        | none => (.nilDeref, r.2.1, .attempt s :: r.2.2)
        | some s2 =>
          (.ret env.second.n env.second.err, r.2.1,
            .attempt s :: r.2.2 ++ [.attempt s2])

example :
    Conn.Write ⟨"a", some 1⟩ [0]
      ⟨⟨0, some (.ioError 9)⟩, .ok 2, ⟨3, none⟩⟩ =
    (.ret 3 none, ⟨"a", some 2⟩,
      [.attempt 1, .closeSock 1, .dialEv (some 2), .attempt 2]) := by decide

/-!
The server-session layer.

A Server method performs one s.conn.Write of the command and then reads a
response through a fresh bufio.Reader over s.conn. For one such exchange the
peer and transport are modelled by a SrvScript: the final outcome of the
command write (after the Conn layer's internal retry, whose anatomy is
proved separately above), and the chunks in which the response bytes
arrive. The mutex serialises exchanges and is invisible to a single
exchange, which is what every claim below is about.
-/

/-- One exchange's transport behaviour: the command write's final outcome
and the arriving response chunks. -/
structure SrvScript where
  writeErr : Option GoErr
  input : List Bytes
deriving DecidableEq, Repr

/-- Server.WriteCommand: write the command line, read a single response
line, return it with surrounding whitespace trimmed. -/
def Server.WriteCommand (s : SrvScript) (cmd : Bytes) : Except GoErr Bytes :=
  match s.writeErr with
  | some e => .error (.joined .errWriteFailed e)
  | none =>
    match readLine s.input [] with
    | none => .error (.joined .errReadFailed .eof)
    | some (response, _, _) => .ok (trimSpace response)

example :
    Server.WriteCommand ⟨none, [strBytes "STORED\r\n"]⟩ (strBytes "set k 0 0 1\r\nv\r\n") =
    .ok (strBytes "STORED") := by decide

/-- Server.GetValue: send get/gets, parse the VALUE header, read the
byteCount+2 payload block with a single reader.Read whose byte count is
discarded (the zero-initialised slice keeps its zeros where the read came up
short), take the first byteCount bytes as the value, then require the END
line. Returns (value, cas); cas keeps its zero value unless withCAS. -/
def Server.GetValue (s : SrvScript) (key : Bytes) (withCAS : Bool) :
    Except GoErr (Bytes × Nat) :=
  let cmd :=
    (if withCAS then strBytes "gets " else strBytes "get ") ++ key ++ strBytes "\r\n"
  match s.writeErr with
  | some e => .error (.joined .errWriteFailed e)
  | none =>
  match readLine s.input [] with
  | none => .error (.joined .errReadFailed .eof)
  | some (line0, buf1, ch1) =>
  let line := trimSpace line0
  if line = strBytes "END" then .error .errNotFound
  else
  let parts := splitOnSpace line
  if parts.length < 4 ∨ parts.getD 0 [] ≠ strBytes "VALUE" then
    .error .errUnexpectedResponse
  else
  let casRes : Except GoErr Nat :=
    if withCAS then
      if parts.length < 5 then .error .errUnexpectedResponse
      else
        match parseUintB (parts.getD 4 []) with
        | none => .error (.joined .errInternal .parseErr)
        | some v => .ok v
    else .ok 0
  match casRes with
  | .error e => .error e
  | .ok cas =>
  match atoiInt (parts.getD 3 []) with
  | none => .error (.joined .errInternal .parseErr)
  | some byteCount =>
  let nRead := (byteCount + 2).toNat
  match readerReadOnce buf1 ch1 nRead with
  | none => .error (.joined .errReadFailed .eof)
  | some (got, buf2, ch2) =>
  let data := got ++ List.replicate (nRead - got.length) 0
  let value := data.take byteCount.toNat
  match readLine ch2 buf2 with
  | none => .error (.joined .errReadFailed .eof)
  | some (endLine, _, _) =>
  if trimSpace endLine = strBytes "END" then .ok (value, cas)
  else .error .errUnexpectedResponse

example :
    Server.GetValue ⟨none, [strBytes "VALUE key 0 5\r\nHELLO\r\nEND\r\n"]⟩
      (strBytes "key") false = .ok (strBytes "HELLO", 0) := by decide

example :
    Server.GetValue ⟨none, [strBytes "VALUE key 0 5 77\r\nHELLO\r\nEND\r\n"]⟩
      (strBytes "key") true = .ok (strBytes "HELLO", 77) := by decide

example :
    Server.GetValue ⟨none, [strBytes "END\r\n"]⟩ (strBytes "key") false =
    .error .errNotFound := by decide

/-- A Go map[string]string, as an association list whose insert overwrites
in place; iteration order never affects any result proved here. -/
abbrev StatsMap := List (Bytes × Bytes)

/-- Lookup in a StatsMap (first, hence unique, binding). -/
def mapLookup (m : StatsMap) (k : Bytes) : Option Bytes :=
  match m with
  | [] => none
  | kv :: rest => if kv.1 = k then some kv.2 else mapLookup rest k

/-- Go map assignment stats[k] = v: overwrite the binding or append it. -/
def mapSet (m : StatsMap) (k v : Bytes) : StatsMap :=
  match m with
  | [] => [(k, v)]
  | kv :: rest => if kv.1 = k then (k, v) :: rest else kv :: mapSet rest k v

/-- Total byte count of a chunk list; plus one it bounds the line count of
the stream and so fuels the stats read loop, which consumes at least one
byte per line. -/
def streamLen (chunks : List Bytes) : Nat :=
  (chunks.map List.length).sum

/-- The read loop of Server.GetStats: lines until END, each required to be
STAT key value (value may hold spaces: SplitN with limit 3), accumulated by
Go map assignment. The fuel argument only realises termination; it is
always sufficient for the whole stream. -/
def getStatsLoop : Nat → List Bytes → Bytes → StatsMap → Except GoErr StatsMap
  | 0, _, _, _ => .error (.joined .errReadFailed .eof)
  | fuel + 1, chunks, buf, stats =>
    match readLine chunks buf with
    | none => .error (.joined .errReadFailed .eof)
    | some (line0, buf1, ch1) =>
      let line := trimSpace line0
      if line = strBytes "END" then .ok stats
      else
        let parts := splitOnSpaceN 3 line
        if parts.length < 3 then .error .errUnexpectedResponse
        else if parts.getD 0 [] ≠ strBytes "STAT" then .error .errUnexpectedResponse
        else getStatsLoop fuel ch1 buf1 (mapSet stats (parts.getD 1 []) (parts.getD 2 []))

/-- Server.GetStats: send stats, then read STAT lines until END. -/
def Server.GetStats (s : SrvScript) : Except GoErr StatsMap :=
  match s.writeErr with
  | some e => .error (.joined .errWriteFailed e)
  | none => getStatsLoop (streamLen s.input + 1) s.input [] []

example :
    Server.GetStats ⟨none, [strBytes "STAT pid 1\r\nSTAT uptime 2 3\r\nEND\r\n"]⟩ =
    .ok [(strBytes "pid", strBytes "1"), (strBytes "uptime", strBytes "2 3")] := by
  decide

/-!
The client layer.

A client holds an ordered list of sessions. For routing only the list and
the key matter, so pickServer is generic in the session payload; the
command functions instantiate it with the SrvScript describing the routed
session's next exchange. Counts rendered with the fmt sd verb keep Go's
int type as Int.
-/

/-- Client.pickServer: the no-servers error on an empty list, otherwise the
session at index crc32.ChecksumIEEE(key) mod the list length (the uint32
hash cast to a 64-bit int is the same non-negative number). -/
def Client.pickServer {α : Type} (servers : List α) (key : Bytes) :
    Except GoErr α :=
  if h : servers.length = 0 then .error .errNoServers
  else
    .ok (servers.get
      ⟨crc32ChecksumIEEE key % servers.length,
        Nat.mod_lt _ (Nat.pos_of_ne_zero h)⟩)

/-- Client.Set: format the storage command (flags fixed to 0, the byte
length taken from the value itself) and require the STORED reply. -/
def Client.Set (servers : List SrvScript) (key value : Bytes)
    (expiration : Int) : Except GoErr Unit :=
  match Client.pickServer servers key with
  | .error e => .error e
  | .ok s =>
    let command :=
      strBytes "set " ++ key ++ strBytes " 0 " ++ intBytes expiration ++
        strBytes " " ++ natBytes value.length ++ strBytes "\r\n" ++
        value ++ strBytes "\r\n"
    match Server.WriteCommand s command with
    | .error e => .error (.joined .errWriteFailed e)
    | .ok resp =>
      if resp = strBytes "STORED" then .ok () else .error .errStoreFailed

/-- Client.Get: route the key and fetch its value without a CAS token. -/
def Client.Get (servers : List SrvScript) (key : Bytes) :
    Except GoErr Bytes :=
  match Client.pickServer servers key with
  | .error e => .error e
  | .ok s =>
    match Server.GetValue s key false with
    | .error e => .error e
    | .ok (value, _) => .ok value

/-- Client.Increment: send incr, map a NOT_FOUND reply to the not-found
error, and otherwise scan the reply for a number with the error discarded. -/
def Client.Increment (servers : List SrvScript) (key : Bytes) (delta : Int) :
    Except GoErr Nat :=
  match Client.pickServer servers key with
  | .error e => .error e
  | .ok s =>
    let command := strBytes "incr " ++ key ++ strBytes " " ++ intBytes delta ++
      strBytes "\r\n"
    match Server.WriteCommand s command with
    | .error e => .error (.joined .errWriteFailed e)
    | .ok resp =>
      if resp = strBytes "NOT_FOUND" then .error .errNotFound
      else .ok (sscanfUint resp)

/-- Client.Decrement: identical to Increment with the decr command. -/
def Client.Decrement (servers : List SrvScript) (key : Bytes) (delta : Int) :
    Except GoErr Nat :=
  match Client.pickServer servers key with
  | .error e => .error e
  | .ok s =>
    let command := strBytes "decr " ++ key ++ strBytes " " ++ intBytes delta ++
      strBytes "\r\n"
    match Server.WriteCommand s command with
    | .error e => .error (.joined .errWriteFailed e)
    | .ok resp =>
      if resp = strBytes "NOT_FOUND" then .error .errNotFound
      else .ok (sscanfUint resp)

/-- The fan-out loop shared verbatim by FlushAll and Verbosity in the
source: sessions in list order, stop at the first exchange that errors or
does not answer OK. Alongside the Go return value it yields the number of
sessions actually contacted, each exactly once, so the abort point is part
of the statement. -/
def fanoutOKLoop (cmd : Bytes) : List SrvScript → Option GoErr × Nat
  | [] => (none, 0)
  | s :: rest =>
    match Server.WriteCommand s cmd with
    | .error e => (some (.joined .errWriteFailed e), 1)
    | .ok resp =>
      if resp = strBytes "OK" then
        let r := fanoutOKLoop cmd rest
        (r.1, r.2 + 1)
      else (some .errStoreFailed, 1)

/-- Client.FlushAll: flush_all with the delay, to every session in order,
aborting at the first failure. -/
def Client.FlushAll (servers : List SrvScript) (sec : Int) :
    Option GoErr × Nat :=
  fanoutOKLoop (strBytes "flush_all " ++ intBytes sec ++ strBytes "\r\n") servers

/-- Client.Verbosity: verbosity with the level, to every session in order,
aborting at the first failure. -/
def Client.Verbosity (servers : List SrvScript) (level : Int) :
    Option GoErr × Nat :=
  fanoutOKLoop (strBytes "verbosity " ++ intBytes level ++ strBytes "\r\n") servers

/-- Merge one session's stats into the accumulated map, keeping any binding
already present (the existence check of StatsAll's inner loop). -/
def mergeInto (acc : StatsMap) (stats : StatsMap) : StatsMap :=
  stats.foldl (fun a kv => if (mapLookup a kv.1).isSome then a else a ++ [kv]) acc

/-- The loop of Client.StatsAll: stats from each session in list order; an
error stops the loop and is joined onto the write-failed sentinel, with the
partial merge still returned, exactly as the source does. -/
def statsAllLoop : List SrvScript → StatsMap → StatsMap × Option GoErr
  | [], acc => (acc, none)
  | s :: rest, acc =>
    match Server.GetStats s with
    | .error e => (acc, some (.joined .errWriteFailed e))
    | .ok stats => statsAllLoop rest (mergeInto acc stats)

/-- Client.StatsAll: merged statistics over every session. -/
def Client.StatsAll (servers : List SrvScript) : StatsMap × Option GoErr :=
  statsAllLoop servers []

/-!
Construction (NewConn, NewServer, NewClient). Dialing is modelled by an
environment mapping an address to a socket or a failure; NewClient dials
every address eagerly, in order, and aborts on the first failure with no
client value.
-/

/-- The dialing environment: what net.Dial returns per address. -/
structure DialEnv where
  dial : String → Except GoErr Nat

/-- NewConn: dial the address; only a live socket yields a Conn. -/
def NewConn (env : DialEnv) (address : String) : Except GoErr Conn :=
  match env.dial address with
  | .error e => .error e
  | .ok s => .ok { addr := address, conn := some s }

/-- A constructed session: its address and its connection. -/
structure ServerRec where
  Address : String
  conn : Conn
deriving DecidableEq, Repr

/-- NewServer: a session over a freshly dialed connection. -/
def NewServer (env : DialEnv) (address : String) : Except GoErr ServerRec :=
  match NewConn env address with
  | .error e => .error e
  | .ok c => .ok { Address := address, conn := c }

/-- The construction loop of NewClient: one session per address, in order,
aborting on the first dial failure. -/
def newClientLoop (env : DialEnv) : List String → Except GoErr (List ServerRec)
  | [] => .ok []
  | addr :: rest =>
    match NewServer env addr with
    | .error e => .error e
    | .ok s =>
      match newClientLoop env rest with
      | .error e => .error e
      | .ok ss => .ok (s :: ss)

/-- NewClient: the empty-addresses error on an empty list, otherwise eager
construction of every session. -/
def NewClient (env : DialEnv) (addresses : List String) :
    Except GoErr (List ServerRec) :=
  match addresses with
  | [] => .error .errEmptyAddresses
  | _ :: _ => newClientLoop env addresses

/-!
Claim theorems.
-/

/-- C1: on a live connection, Conn.Write and Conn.Read attempt the
operation once; exactly when that first attempt fails they perform exactly
one reconnect (close the stale socket, one redial) and exactly one retry;
a redial failure or a retry failure is returned to the caller unmodified,
and no further attempt occurs. The event trace makes the attempt counts
explicit in each of the three possible shapes of a call. -/
theorem conn_single_reconnect_retry (c : Conn) (s : Nat) (b p : Bytes)
    (env : ConnEnv) (hc : c.conn = some s) :
    (env.first.err = none →
      Conn.Write c b env = (.ret env.first.n none, c, [.attempt s]) ∧
      Conn.Read c p env = (.ret env.first.n none, c, [.attempt s])) ∧
    (∀ e e', env.first.err = some e → env.dial = .error e' →
      Conn.Write c b env =
        (.ret env.first.n (some e'), { c with conn := none },
          [.attempt s, .closeSock s, .dialEv none]) ∧
      Conn.Read c p env =
        (.ret env.first.n (some e'), { c with conn := none },
          [.attempt s, .closeSock s, .dialEv none])) ∧
    (∀ e s', env.first.err = some e → env.dial = .ok s' →
      Conn.Write c b env =
        (.ret env.second.n env.second.err, { c with conn := some s' },
          [.attempt s, .closeSock s, .dialEv (some s'), .attempt s']) ∧
      Conn.Read c p env =
        (.ret env.second.n env.second.err, { c with conn := some s' },
          [.attempt s, .closeSock s, .dialEv (some s'), .attempt s'])) := by
  refine ⟨fun h1 => ?_, fun e e' h1 h2 => ?_, fun e s' h1 h2 => ?_⟩ <;>
    simp [Conn.Write, Conn.Read, Conn.reconnect, Conn.connect, hc, h1]
  · simp [*]
  · simp [*]

/-- Witness for C1: each of the three shapes at concrete inputs. -/
theorem conn_single_reconnect_retry_witness :
    Conn.Write ⟨"a", some 1⟩ [7] ⟨⟨5, none⟩, .ok 2, ⟨0, none⟩⟩ =
      (.ret 5 none, ⟨"a", some 1⟩, [.attempt 1]) ∧
    Conn.Write ⟨"a", some 1⟩ [7]
        ⟨⟨0, some (.ioError 1)⟩, .error (.ioError 2), ⟨0, none⟩⟩ =
      (.ret 0 (some (.ioError 2)), ⟨"a", none⟩,
        [.attempt 1, .closeSock 1, .dialEv none]) ∧
    Conn.Read ⟨"a", some 1⟩ [7]
        ⟨⟨0, some (.ioError 1)⟩, .ok 2, ⟨4, some (.ioError 3)⟩⟩ =
      (.ret 4 (some (.ioError 3)), ⟨"a", some 2⟩,
        [.attempt 1, .closeSock 1, .dialEv (some 2), .attempt 2]) :=
  ⟨((conn_single_reconnect_retry ⟨"a", some 1⟩ 1 [7] [7] _ rfl).1 rfl).1,
   ((conn_single_reconnect_retry ⟨"a", some 1⟩ 1 [7] [7] _ rfl).2.1 _ _ rfl rfl).1,
   ((conn_single_reconnect_retry ⟨"a", some 1⟩ 1 [7] [7] _ rfl).2.2 _ _ rfl rfl).2⟩

/-- C5 evaluation: a call whose operation and redial both fail leaves the
connection with no socket and returns the redial error; but the next Write
or Read on that same Conn then invokes a method on the nil socket and
faults, instead of returning an error. -/
theorem conn_nil_socket_fault :
    Conn.Write ⟨"a", some 1⟩ [7]
        ⟨⟨0, some (.ioError 1)⟩, .error (.ioError 2), ⟨0, none⟩⟩ =
      (.ret 0 (some (.ioError 2)), ⟨"a", none⟩,
        [.attempt 1, .closeSock 1, .dialEv none]) ∧
    (Conn.Write ⟨"a", none⟩ [7]
        ⟨⟨0, some (.ioError 1)⟩, .error (.ioError 2), ⟨0, none⟩⟩).1 =
      .nilDeref ∧
    (Conn.Read ⟨"a", none⟩ [7]
        ⟨⟨0, some (.ioError 1)⟩, .error (.ioError 2), ⟨0, none⟩⟩).1 =
      .nilDeref := by decide

/-- C2: pickServer fails with the no-servers error exactly on an empty
session list, and on a non-empty list of length N it returns the session at
index crc32.ChecksumIEEE(key bytes) mod N. Determinism and stability across
repeated calls are immediate: the result is this fixed function of the key
bytes and the list alone. -/
theorem pickServer_crc32_mod {α : Type} (servers : List α) (key : Bytes) :
    (servers = [] → Client.pickServer servers key = .error .errNoServers) ∧
    (∀ h : servers ≠ [], Client.pickServer servers key =
      .ok (servers.get ⟨crc32ChecksumIEEE key % servers.length,
        Nat.mod_lt _ (List.length_pos.mpr h)⟩)) := by
  constructor
  · intro h
    subst h
    rfl
  · intro h
    have h0 : ¬ servers.length = 0 := fun h0 => h (List.length_eq_zero.mp h0)
    simp [Client.pickServer, h0]

set_option maxRecDepth 8192 in
/-- Witness for C2: routing over a two-session list and the empty list. -/
theorem pickServer_crc32_mod_witness :
    Client.pickServer [10, 20] (strBytes "x") = .ok 20 ∧
    Client.pickServer ([] : List Nat) (strBytes "x") = .error .errNoServers := by
  constructor
  · have h := (pickServer_crc32_mod [10, 20] (strBytes "x")).2 (by simp)
    rw [h]
    decide
  · exact (pickServer_crc32_mod ([] : List Nat) (strBytes "x")).1 rfl

/-- C3 evaluation: GetValue does not read exactly bytes+2 octets. The
header declares 5 bytes, the transport delivers the payload in two
fragments, and the single reader.Read with its count discarded consumes
only the first fragment: the next line read then lands inside the payload
and the call fails with unexpected-response instead of returning the
5-byte value. With the same octets in one fragment the call succeeds,
isolating fragmentation as the trigger. -/
theorem getValue_short_read_bug :
    Server.GetValue
        ⟨none, [strBytes "VALUE key 0 5\r\n", strBytes "HE",
          strBytes "LLO\r\nEND\r\n"]⟩ (strBytes "key") false =
      .error .errUnexpectedResponse ∧
    Server.GetValue ⟨none, [strBytes "VALUE key 0 5\r\nHELLO\r\nEND\r\n"]⟩
        (strBytes "key") false =
      .ok (strBytes "HELLO", 0) := by decide

set_option maxRecDepth 8192 in
/-- C4 evaluation: the Set/Get round trip is not byte-for-byte. The value
ABCEND is stored (STORED acknowledged); the faithful get response
VALUE key 0 6, the 6 payload bytes, CRLF, END arrives with the payload
split after 3 bytes, and Get succeeds returning ABC padded with three NUL
bytes — not the stored value. Delivered in one fragment, the same response
round-trips correctly. -/
theorem set_get_roundtrip_bug :
    Client.Set [⟨none, [strBytes "STORED\r\n"]⟩] (strBytes "key")
        (strBytes "ABCEND") 0 = .ok () ∧
    Client.Get [⟨none, [strBytes "VALUE key 0 6\r\n", strBytes "ABC",
        strBytes "END\r\nEND\r\n"]⟩] (strBytes "key") =
      .ok [65, 66, 67, 0, 0, 0] ∧
    ([65, 66, 67, 0, 0, 0] : Bytes) ≠ strBytes "ABCEND" ∧
    Client.Get [⟨none, [strBytes "VALUE key 0 6\r\nABCEND\r\nEND\r\n"]⟩]
        (strBytes "key") = .ok (strBytes "ABCEND") := by decide

/-- A byte string without a newline has no line to split off. -/
theorem splitAtNewline_eq_none (bs : Bytes) (h : 10 ∉ bs) :
    splitAtNewline bs = none := by
  induction bs with
  | nil => rfl
  | cons b bs ih =>
    have hb : ¬ b = 10 := fun hb => h (hb ▸ List.mem_cons_self b bs)
    have hbs : 10 ∉ bs := fun hm => h (List.mem_cons_of_mem b hm)
    simp [splitAtNewline, hb, ih hbs]

/-- What splitAtNewline returns: the split is a decomposition and the line
is the shortest prefix through a newline. -/
theorem splitAtNewline_sound (bs l r : Bytes) (h : splitAtNewline bs = some (l, r)) :
    bs = l ++ r ∧ ∃ l0, l = l0 ++ [10] ∧ 10 ∉ l0 := by
  induction bs generalizing l r with
  | nil => simp [splitAtNewline] at h
  | cons b bs ih =>
    by_cases hb : b = 10
    · subst hb
      simp [splitAtNewline] at h
      obtain ⟨h1, h2⟩ := h
      subst h1; subst h2
      exact ⟨rfl, [], rfl, by simp⟩
    · simp [splitAtNewline, hb] at h
      match hsp : splitAtNewline bs with
      | none => rw [hsp] at h; simp at h
      | some (l', r') =>
        rw [hsp] at h
        simp at h
        obtain ⟨h1, h2⟩ := h
        subst h1; subst h2
        obtain ⟨hdec, l0, hl0, hnl0⟩ := ih l' r' hsp
        refine ⟨by rw [hdec]; rfl, b :: l0, by rw [hl0]; rfl, ?_⟩
        intro hm
        rcases List.mem_cons.mp hm with h10 | h10
        · exact hb h10.symm
        · exact hnl0 h10

/-- The first newline of a byte string decomposes it uniquely. -/
theorem first_newline_unique (l0 : Bytes) :
    ∀ (L x y : Bytes), 10 ∉ l0 → 10 ∉ L →
      l0 ++ 10 :: x = L ++ 10 :: y → l0 = L ∧ x = y := by
  induction l0 with
  | nil =>
    intro L x y _ hL heq
    cases L with
    | nil => simpa using heq
    | cons a L' =>
      simp at heq
      exact absurd (heq.1 ▸ List.mem_cons_self a L') hL
  | cons b l0' ih =>
    intro L x y hl hL heq
    cases L with
    | nil =>
      simp at heq
      exact absurd (heq.1 ▸ List.mem_cons_self b l0') hl
    | cons a L' =>
      simp at heq
      obtain ⟨hba, hrest⟩ := heq
      have hl' : 10 ∉ l0' := fun hm => hl (List.mem_cons_of_mem b hm)
      have hL' : 10 ∉ L' := fun hm => hL (List.mem_cons_of_mem a hm)
      obtain ⟨h1, h2⟩ := ih L' x y hl' hL' hrest
      exact ⟨by rw [hba, h1], h2⟩

/-- A newline-free prefix followed by a newline splits exactly there. -/
theorem splitAtNewline_append (l r : Bytes) (h : 10 ∉ l) :
    splitAtNewline (l ++ 10 :: r) = some (l ++ [10], r) := by
  induction l with
  | nil => simp [splitAtNewline]
  | cons b l' ih =>
    have hb : ¬ b = 10 := fun hb => h (hb ▸ List.mem_cons_self b l')
    have hl' : 10 ∉ l' := fun hm => h (List.mem_cons_of_mem b hm)
    simp [splitAtNewline, hb, ih hl']

/-- ReadString over any fragmentation: when the whole remaining stream is a
newline-free line plus its terminating newline, the reader returns that
entire line however the transport chunked it. -/
theorem readLine_full (chunks : List Bytes) :
    ∀ (buf L : Bytes), 10 ∉ L → buf ++ chunks.flatten = L ++ [10] →
      ∃ buf2 ch2, readLine chunks buf = some (L ++ [10], buf2, ch2) := by
  induction chunks with
  | nil =>
    intro buf L hL hflat
    simp at hflat
    rw [readLine, hflat, show L ++ [10] = L ++ 10 :: [] from rfl,
      splitAtNewline_append L [] hL]
    exact ⟨[], [], rfl⟩
  | cons c cs ih =>
    intro buf L hL hflat
    rw [readLine]
    match hsp : splitAtNewline buf with
    | some (l, r) =>
      obtain ⟨hdec, l0, hl0, hnl0⟩ := splitAtNewline_sound buf l r hsp
      have heq : l0 ++ 10 :: (r ++ (c :: cs).flatten) = L ++ 10 :: [] := by
        have : buf ++ (c :: cs).flatten = L ++ [10] := hflat
        rw [hdec, hl0] at this
        simpa using this
      obtain ⟨h1, _⟩ := first_newline_unique l0 L (r ++ (c :: cs).flatten) [] hnl0 hL heq
      exact ⟨r, c :: cs, by rw [hl0, h1]⟩
    | none =>
      have hflat' : (buf ++ c) ++ cs.flatten = L ++ [10] := by
        simpa [List.append_assoc] using hflat
      exact ih (buf ++ c) L hL hflat'

/-- C6: when the routed session's whole response to the get is the
not-found sentinel line END, however the transport fragments it, Get fails
with the not-found error — in particular it never returns a zero-length
value as a success. -/
theorem get_absent_key_not_found (servers : List SrvScript) (key : Bytes)
    (s : SrvScript) (hpick : Client.pickServer servers key = .ok s)
    (hw : s.writeErr = none)
    (hresp : s.input.flatten = strBytes "END\r\n") :
    Client.Get servers key = .error .errNotFound := by
  obtain ⟨buf2, ch2, hrl⟩ := readLine_full s.input [] (strBytes "END\r")
    (by decide) (by rw [List.nil_append, hresp]; decide)
  have hline : strBytes "END\r" ++ [10] = strBytes "END\r\n" := by decide
  rw [hline] at hrl
  simp [Client.Get, hpick, Server.GetValue, hw, hrl,
    show trimSpace (strBytes "END\r\n") = strBytes "END" from by decide]

set_option maxRecDepth 8192 in
/-- Witness for C6: a fragmented END response yields the not-found error. -/
theorem get_absent_key_not_found_witness :
    Client.Get [⟨none, [strBytes "EN", strBytes "D\r\n"]⟩] (strBytes "k") =
      .error .errNotFound :=
  get_absent_key_not_found [⟨none, [strBytes "EN", strBytes "D\r\n"]⟩]
    (strBytes "k") ⟨none, [strBytes "EN", strBytes "D\r\n"]⟩
    (by decide) rfl (by decide)

/-- The construction loop succeeds exactly when every address dials. -/
theorem newClientLoop_ok_iff (env : DialEnv) (addrs : List String) :
    (∃ c, newClientLoop env addrs = .ok c) ↔
      ∀ a ∈ addrs, ∃ sock, env.dial a = .ok sock := by
  induction addrs with
  | nil => simp [newClientLoop]
  | cons a rest ih =>
    constructor
    · rintro ⟨c, hc⟩
      intro x hx
      rw [newClientLoop] at hc
      match hd : NewServer env a with
      | .error e => rw [hd] at hc; simp at hc
      | .ok s =>
        rw [hd] at hc
        have hrest : ∃ c', newClientLoop env rest = .ok c' := by
          match hr : newClientLoop env rest with
          | .error e => rw [hr] at hc; simp at hc
          | .ok ss => exact ⟨ss, rfl⟩
        rcases List.mem_cons.mp hx with hxa | hxr
        · subst hxa
          rw [NewServer, NewConn] at hd
          match hda : env.dial x with
          | .error e => rw [hda] at hd; simp at hd
          | .ok sock => exact ⟨sock, rfl⟩
        · exact ih.mp hrest x hxr
    · intro hall
      obtain ⟨sock, hsock⟩ := hall a (List.mem_cons_self a rest)
      obtain ⟨c', hc'⟩ := ih.mpr fun x hx => hall x (List.mem_cons_of_mem a hx)
      refine ⟨⟨a, ⟨a, some sock⟩⟩ :: c', ?_⟩
      rw [newClientLoop, NewServer, NewConn, hsock, hc']

/-- A successfully constructed session list carries the addresses in the
given order, one session per address. -/
theorem newClientLoop_addresses (env : DialEnv) (addrs : List String) :
    ∀ c, newClientLoop env addrs = .ok c →
      c.map ServerRec.Address = addrs := by
  induction addrs with
  | nil =>
    intro c hc
    rw [newClientLoop] at hc
    simp at hc
    subst hc
    rfl
  | cons a rest ih =>
    intro c hc
    rw [newClientLoop] at hc
    match hd : NewServer env a with
    | .error e => rw [hd] at hc; simp at hc
    | .ok s =>
      rw [hd] at hc
      match hr : newClientLoop env rest with
      | .error e => rw [hr] at hc; simp at hc
      | .ok ss =>
        rw [hr] at hc
        simp at hc
        subst hc
        have ha : s.Address = a := by
          rw [NewServer, NewConn] at hd
          match hda : env.dial a with
          | .error e => rw [hda] at hd; simp at hd
          | .ok sock => rw [hda] at hd; simp at hd; rw [← hd]
        simp [ha, ih ss hr]

/-- C7: NewClient on an empty address list always fails with the
empty-addresses error; on a non-empty list it dials every address eagerly
and succeeds — one session per address, in order — exactly when every
address is dialable, so any single dial failure fails the whole
construction with no client value returned. -/
theorem newClient_dial_spec (env : DialEnv) (addresses : List String) :
    (addresses = [] → NewClient env addresses = .error .errEmptyAddresses) ∧
    (addresses ≠ [] →
      ((∃ c, NewClient env addresses = .ok c) ↔
        ∀ a ∈ addresses, ∃ sock, env.dial a = .ok sock) ∧
      (∀ c, NewClient env addresses = .ok c →
        c.map ServerRec.Address = addresses)) := by
  constructor
  · intro h
    subst h
    rfl
  · intro h
    match addresses, h with
    | a :: rest, _ =>
      exact ⟨newClientLoop_ok_iff env (a :: rest),
        newClientLoop_addresses env (a :: rest)⟩

/-- Witness for C7: an always-dialable environment constructs a client for
one address and rejects the empty list; an environment whose second address
is not dialable fails the whole two-address construction. -/
theorem newClient_dial_spec_witness :
    NewClient ⟨fun _ => .ok 0⟩ [] = .error .errEmptyAddresses ∧
    (∃ c, NewClient ⟨fun _ => .ok 0⟩ ["x"] = .ok c) ∧
    ¬ (∃ c, NewClient
        ⟨fun a => if a = "bad" then .error (.ioError 7) else .ok 0⟩
        ["x", "bad"] = .ok c) := by
  refine ⟨(newClient_dial_spec ⟨fun _ => .ok 0⟩ []).1 rfl, ?_, ?_⟩
  · exact ((newClient_dial_spec ⟨fun _ => .ok 0⟩ ["x"]).2 (by simp)).1.mpr
      (by intro a ha; exact ⟨0, rfl⟩)
  · intro hex
    have hall := ((newClient_dial_spec
      ⟨fun a => if a = "bad" then .error (.ioError 7) else .ok 0⟩
      ["x", "bad"]).2 (by simp)).1.mp hex
    obtain ⟨sock, hsock⟩ := hall "bad" (by simp)
    simp at hsock

/-- C8: with the routed session's exchange succeeding, Increment and
Decrement fail with the not-found error exactly when the trimmed reply line
is NOT_FOUND; any other reply is scanned permissively for an integer, and a
reply with no leading digits yields the value zero with no error. -/
theorem incr_decr_reply_parsing (servers : List SrvScript) (key : Bytes)
    (delta : Int) (s : SrvScript) (line buf2 : Bytes) (ch2 : List Bytes)
    (hpick : Client.pickServer servers key = .ok s)
    (hw : s.writeErr = none)
    (hrl : readLine s.input [] = some (line, buf2, ch2)) :
    (Client.Increment servers key delta = .error .errNotFound ↔
      trimSpace line = strBytes "NOT_FOUND") ∧
    (Client.Decrement servers key delta = .error .errNotFound ↔
      trimSpace line = strBytes "NOT_FOUND") ∧
    (trimSpace line ≠ strBytes "NOT_FOUND" →
      Client.Increment servers key delta = .ok (sscanfUint (trimSpace line)) ∧
      Client.Decrement servers key delta = .ok (sscanfUint (trimSpace line)) ∧
      (((trimSpace line).dropWhile isSpaceByte).takeWhile isDigitByte = [] →
        Client.Increment servers key delta = .ok 0 ∧
        Client.Decrement servers key delta = .ok 0)) := by
  by_cases hnf : trimSpace line = strBytes "NOT_FOUND"
  · simp [Client.Increment, Client.Decrement, Server.WriteCommand, hpick, hw,
      hrl, hnf]
  · refine ⟨?_, ?_, fun _ => ⟨?_, ?_, fun hd => ?_⟩⟩ <;>
      simp [Client.Increment, Client.Decrement, Server.WriteCommand, hpick,
        hw, hrl, hnf]
    simp [sscanfUint, hd, List.isEmpty_iff]

/-- Witness for C8: a NOT_FOUND reply errs, a numeric reply parses, and a
malformed CLIENT_ERROR reply yields zero without error. -/
theorem incr_decr_reply_parsing_witness :
    Client.Increment [⟨none, [strBytes "NOT_FOUND\r\n"]⟩] (strBytes "k") 1 =
      .error .errNotFound ∧
    Client.Increment [⟨none, [strBytes "15\r\n"]⟩] (strBytes "k") 1 = .ok 15 ∧
    Client.Decrement [⟨none, [strBytes "CLIENT_ERROR x\r\n"]⟩] (strBytes "k") 1 =
      .ok 0 := by
  refine ⟨?_, ?_, ?_⟩
  · exact (incr_decr_reply_parsing [⟨none, [strBytes "NOT_FOUND\r\n"]⟩]
      (strBytes "k") 1 ⟨none, [strBytes "NOT_FOUND\r\n"]⟩
      (strBytes "NOT_FOUND\r\n") [] [] (by decide) rfl (by decide)).1.mpr
      (by decide)
  · have h := ((incr_decr_reply_parsing [⟨none, [strBytes "15\r\n"]⟩]
      (strBytes "k") 1 ⟨none, [strBytes "15\r\n"]⟩
      (strBytes "15\r\n") [] [] (by decide) rfl (by decide)).2.2
      (by decide)).1
    rw [h]
    decide
  · exact ((incr_decr_reply_parsing [⟨none, [strBytes "CLIENT_ERROR x\r\n"]⟩]
      (strBytes "k") 1 ⟨none, [strBytes "CLIENT_ERROR x\r\n"]⟩
      (strBytes "CLIENT_ERROR x\r\n") [] [] (by decide) rfl (by decide)).2.2
      (by decide)).2.2 (by decide) |>.2

/-- First-present lookup across a sequence of stats maps, in order. -/
def lookupFirst : List StatsMap → Bytes → Option Bytes
  | [], _ => none
  | m :: ms, k =>
    match mapLookup m k with
    | some v => some v
    | none => lookupFirst ms k

/-- Appending cannot change a binding that is already present. -/
theorem mapLookup_append_of_isSome (a l : StatsMap) (k : Bytes)
    (h : (mapLookup a k).isSome) : mapLookup (a ++ l) k = mapLookup a k := by
  induction a with
  | nil => simp [mapLookup] at h
  | cons kv rest ih =>
    by_cases hk : kv.1 = k
    · simp [mapLookup, hk]
    · rw [mapLookup] at h
      rw [if_neg hk] at h
      simp only [List.cons_append, mapLookup, if_neg hk]
      exact ih h

/-- Looking up past an absent binding lands in the appended part. -/
theorem mapLookup_append_of_none (a l : StatsMap) (k : Bytes)
    (h : mapLookup a k = none) : mapLookup (a ++ l) k = mapLookup l k := by
  induction a with
  | nil => rfl
  | cons kv rest ih =>
    by_cases hk : kv.1 = k
    · rw [mapLookup, if_pos hk] at h
      simp at h
    · rw [mapLookup, if_neg hk] at h
      simp only [List.cons_append, mapLookup, if_neg hk]
      exact ih h

/-- Merging one stats map into an accumulator keeps every present binding
and adds the absent ones from the merged map. -/
theorem mapLookup_mergeInto (m : StatsMap) :
    ∀ (a : StatsMap) (k : Bytes),
      mapLookup (mergeInto a m) k =
        match mapLookup a k with
        | some v => some v
        | none => mapLookup m k := by
  induction m with
  | nil =>
    intro a k
    match h : mapLookup a k with
    | some v => simp [mergeInto, h]
    | none => simp [mergeInto, h, mapLookup]
  | cons kv m' ih =>
    intro a k
    have hstep : mergeInto a (kv :: m') =
        mergeInto (if (mapLookup a kv.1).isSome then a else a ++ [kv]) m' := by
      rw [mergeInto, List.foldl_cons, mergeInto]
    rw [hstep, ih]
    match hk : mapLookup a k with
    | some v =>
      have ha' : mapLookup (if (mapLookup a kv.1).isSome then a else a ++ [kv]) k =
          some v := by
        by_cases hs : (mapLookup a kv.1).isSome
        · rw [if_pos hs]; exact hk
        · rw [if_neg hs]
          rw [mapLookup_append_of_isSome a [kv] k (by rw [hk]; rfl)]
          exact hk
      rw [ha']
    | none =>
      by_cases hkk : kv.1 = k
      · subst hkk
        rw [if_neg (by rw [hk]; simp)]
        rw [mapLookup_append_of_none a [kv] kv.1 hk]
        simp [mapLookup]
      · have ha' : mapLookup (if (mapLookup a kv.1).isSome then a else a ++ [kv]) k =
            none := by
          by_cases hs : (mapLookup a kv.1).isSome
          · rw [if_pos hs]; exact hk
          · rw [if_neg hs]
            rw [mapLookup_append_of_none a [kv] k hk]
            simp [mapLookup, hkk]
        rw [ha']
        simp [mapLookup, hkk]

/-- Folding mergeInto over a sequence of maps realises first-present
lookup, relative to what the accumulator already holds. -/
theorem mapLookup_foldl_mergeInto (maps : List StatsMap) :
    ∀ (acc : StatsMap) (k : Bytes),
      mapLookup (List.foldl mergeInto acc maps) k =
        match mapLookup acc k with
        | some v => some v
        | none => lookupFirst maps k := by
  induction maps with
  | nil =>
    intro acc k
    match h : mapLookup acc k with
    | some v => simp [h]
    | none => simp [h, lookupFirst]
  | cons m ms ih =>
    intro acc k
    rw [List.foldl_cons, ih, mapLookup_mergeInto]
    match h : mapLookup acc k with
    | some v => rfl
    | none =>
      match hm : mapLookup m k with
      | some v => simp [lookupFirst, hm]
      | none => simp [lookupFirst, hm]

/-- The StatsAll loop under per-session success: it visits the sessions in
list order and folds their maps into the accumulator. -/
theorem statsAllLoop_of_success (servers : List SrvScript) (maps : List StatsMap)
    (h : List.Forall₂ (fun s m => Server.GetStats s = .ok m) servers maps) :
    ∀ acc, statsAllLoop servers acc = (List.foldl mergeInto acc maps, none) := by
  induction h with
  | nil => intro acc; rfl
  | cons hs hrest ih =>
    intro acc
    rw [statsAllLoop, hs]
    exact ih (mergeInto acc _)

/-- C9: when every session's stats exchange succeeds, StatsAll merges the
per-session results in session-list order with first-writer-wins
semantics: the merged value of every stat key is the value reported by the
first session in the list that reported it, later sessions' values for
that key being discarded. -/
theorem statsAll_first_writer_wins (servers : List SrvScript)
    (maps : List StatsMap)
    (h : List.Forall₂ (fun s m => Server.GetStats s = .ok m) servers maps) :
    (Client.StatsAll servers).2 = none ∧
    ∀ k, mapLookup (Client.StatsAll servers).1 k = lookupFirst maps k := by
  have hloop := statsAllLoop_of_success servers maps h []
  constructor
  · rw [Client.StatsAll, hloop]
  · intro k
    rw [Client.StatsAll, hloop]
    have := mapLookup_foldl_mergeInto maps [] k
    simpa [mapLookup] using this

/-- Witness for C9: two sessions reporting an overlapping stat key; the
merge keeps the first session's value for the shared key and both unique
keys. -/
theorem statsAll_first_writer_wins_witness :
    (Client.StatsAll [⟨none, [strBytes "STAT a 1\r\nSTAT b 2\r\nEND\r\n"]⟩,
        ⟨none, [strBytes "STAT a 9\r\nSTAT c 3\r\nEND\r\n"]⟩]).2 = none ∧
    mapLookup (Client.StatsAll
        [⟨none, [strBytes "STAT a 1\r\nSTAT b 2\r\nEND\r\n"]⟩,
         ⟨none, [strBytes "STAT a 9\r\nSTAT c 3\r\nEND\r\n"]⟩]).1
      (strBytes "a") = some (strBytes "1") ∧
    mapLookup (Client.StatsAll
        [⟨none, [strBytes "STAT a 1\r\nSTAT b 2\r\nEND\r\n"]⟩,
         ⟨none, [strBytes "STAT a 9\r\nSTAT c 3\r\nEND\r\n"]⟩]).1
      (strBytes "c") = some (strBytes "3") := by
  have h := statsAll_first_writer_wins
    [⟨none, [strBytes "STAT a 1\r\nSTAT b 2\r\nEND\r\n"]⟩,
     ⟨none, [strBytes "STAT a 9\r\nSTAT c 3\r\nEND\r\n"]⟩]
    [[(strBytes "a", strBytes "1"), (strBytes "b", strBytes "2")],
     [(strBytes "a", strBytes "9"), (strBytes "c", strBytes "3")]]
    (.cons (by decide) (.cons (by decide) .nil))
  refine ⟨h.1, ?_, ?_⟩
  · rw [h.2 (strBytes "a")]; decide
  · rw [h.2 (strBytes "c")]; decide

/-- The fan-out loop passes over a prefix of sessions that all answer OK,
contacting each exactly once, and continues with the rest. -/
theorem fanoutOKLoop_ok_passover (cmd : Bytes) (good : List SrvScript)
    (hg : ∀ s ∈ good, Server.WriteCommand s cmd = .ok (strBytes "OK")) :
    ∀ tail, fanoutOKLoop cmd (good ++ tail) =
      ((fanoutOKLoop cmd tail).1, (fanoutOKLoop cmd tail).2 + good.length) := by
  induction good with
  | nil => intro tail; simp
  | cons s gs ih =>
    intro tail
    have hs := hg s (List.mem_cons_self s gs)
    have hgs : ∀ x ∈ gs, Server.WriteCommand x cmd = .ok (strBytes "OK") :=
      fun x hx => hg x (List.mem_cons_of_mem s hx)
    rw [List.cons_append, fanoutOKLoop, hs]
    simp [ih hgs tail]
    omega

/-- C10: FlushAll and Verbosity issue their command to the sessions in
list order and abort at the first session whose exchange errors or whose
reply is not OK, returning only that failure; the sessions before the
failing one are contacted exactly once each and not rolled back, and the
sessions after it are not contacted at all — the contact count is the
failing session's position. With no failing session every session is
contacted exactly once and no error is returned. -/
theorem flushAll_verbosity_abort_first_failure (sec level : Int)
    (good rest : List SrvScript) (bad : SrvScript)
    (hgF : ∀ s ∈ good,
      Server.WriteCommand s (strBytes "flush_all " ++ intBytes sec ++ strBytes "\r\n") =
        .ok (strBytes "OK"))
    (hgV : ∀ s ∈ good,
      Server.WriteCommand s (strBytes "verbosity " ++ intBytes level ++ strBytes "\r\n") =
        .ok (strBytes "OK")) :
    (Client.FlushAll good sec = (none, good.length) ∧
      Client.Verbosity good level = (none, good.length)) ∧
    (∀ e, Server.WriteCommand bad
        (strBytes "flush_all " ++ intBytes sec ++ strBytes "\r\n") = .error e →
      Client.FlushAll (good ++ bad :: rest) sec =
        (some (.joined .errWriteFailed e), good.length + 1)) ∧
    (∀ resp, Server.WriteCommand bad
        (strBytes "flush_all " ++ intBytes sec ++ strBytes "\r\n") = .ok resp →
      resp ≠ strBytes "OK" →
      Client.FlushAll (good ++ bad :: rest) sec =
        (some .errStoreFailed, good.length + 1)) ∧
    (∀ e, Server.WriteCommand bad
        (strBytes "verbosity " ++ intBytes level ++ strBytes "\r\n") = .error e →
      Client.Verbosity (good ++ bad :: rest) level =
        (some (.joined .errWriteFailed e), good.length + 1)) ∧
    (∀ resp, Server.WriteCommand bad
        (strBytes "verbosity " ++ intBytes level ++ strBytes "\r\n") = .ok resp →
      resp ≠ strBytes "OK" →
      Client.Verbosity (good ++ bad :: rest) level =
        (some .errStoreFailed, good.length + 1)) := by
  refine ⟨⟨?_, ?_⟩, fun e he => ?_, fun resp hr hne => ?_, fun e he => ?_,
    fun resp hr hne => ?_⟩
  · rw [Client.FlushAll, show good = good ++ ([] : List SrvScript) from by simp,
      fanoutOKLoop_ok_passover _ good (by simpa using hgF) []]
    simp [fanoutOKLoop]
  · rw [Client.Verbosity, show good = good ++ ([] : List SrvScript) from by simp,
      fanoutOKLoop_ok_passover _ good (by simpa using hgV) []]
    simp [fanoutOKLoop]
  · rw [Client.FlushAll, fanoutOKLoop_ok_passover _ good hgF (bad :: rest),
      fanoutOKLoop, he]
    simp [Nat.add_comm]
  · rw [Client.FlushAll, fanoutOKLoop_ok_passover _ good hgF (bad :: rest),
      fanoutOKLoop, hr]
    simp [hne, Nat.add_comm]
  · rw [Client.Verbosity, fanoutOKLoop_ok_passover _ good hgV (bad :: rest),
      fanoutOKLoop, he]
    simp [Nat.add_comm]
  · rw [Client.Verbosity, fanoutOKLoop_ok_passover _ good hgV (bad :: rest),
      fanoutOKLoop, hr]
    simp [hne, Nat.add_comm]

/-- Witness for C10: one acknowledging session, then a session answering
ERROR, then a further session: FlushAll stops after two contacts with the
store-failed error; Verbosity over the acknowledging session alone succeeds
with one contact. -/
theorem flushAll_verbosity_abort_first_failure_witness :
    Client.FlushAll [⟨none, [strBytes "OK\r\n"]⟩, ⟨none, [strBytes "ERROR\r\n"]⟩,
        ⟨none, [strBytes "OK\r\n"]⟩] 0 = (some .errStoreFailed, 2) ∧
    Client.Verbosity [⟨none, [strBytes "OK\r\n"]⟩] 1 = (none, 1) := by
  have h := flushAll_verbosity_abort_first_failure 0 1
    [⟨none, [strBytes "OK\r\n"]⟩] [⟨none, [strBytes "OK\r\n"]⟩]
    ⟨none, [strBytes "ERROR\r\n"]⟩
    (by intro s hs; rw [List.mem_singleton] at hs; subst hs; decide)
    (by intro s hs; rw [List.mem_singleton] at hs; subst hs; decide)
  exact ⟨h.2.2.1 (strBytes "ERROR") (by decide) (by decide), h.1.2⟩

end Memcache
